import Mathlib

/-!
# Sensor gRPC service server: per-resource invocation counters

Shallow embedding of `components/sensor/server.go`.

* A Go `error` value is modelled by `GoError` (the text its `Error()` method returns).
* A Go call returning `(value, error)` whose caller tests `err != nil` first is an `Except`.
* `map[string]V` is `GoMap V`, an association list; `m[k]` is `GoMap.index` and `m[k] = v`
  is `GoMap.assign`, which keeps the keys distinct.  Go leaves the iteration order
  unspecified; the list order is one admissible order.
* `*counters` is an address into `serviceServer.heap`, the list of the `counters` records
  allocated by `new(counters)`; the address of a record is its position.
* `atomic.Int64` is an `Int` in the range `[-2^63, 2^63)`, and `Add` wraps around
  (`wrapInt64`), as Go integer addition does.
* Each handler takes the state of the server before the call and returns its Go result
  together with the state after the call.  The mutex `countersMu` makes the body of
  `getCounts` and the copy loop of `Stats` atomic; the embedding is sequential.
* The resource collection `coll`, the sensors it holds, `protoutils.ReadingGoToProto` and
  `protoutils.DoFromResourceServer` are collaborators that are not part of the file; they are
  parameters.  The collection is a live object, so the handlers take its current
  behaviour as an argument of each call.
-/

namespace sensor

/-! ## Go values -/

/-- Go `error` value, identified with its message. -/
structure GoError where
  msg : String
  deriving DecidableEq

/-- Go `map[string]V`. -/
abbrev GoMap (V : Type) := List (String × V)

namespace GoMap

variable {V : Type}

/-- Comma-ok lookup `v, exists := m[k]`. -/
def index : GoMap V → String → Option V
  | [], _ => none
  | (k', v) :: t, k => if k' = k then some v else index t k

/-- Assignment `m[k] = v`: overwrite the entry of `k` when there is one, add one otherwise. -/
def assign : GoMap V → String → V → GoMap V
  | [], k, v => [(k, v)]
  | (k', v') :: t, k, v => if k' = k then (k, v) :: t else (k', v') :: assign t k v

/-- Key list of the map. -/
def keys (m : GoMap V) : List String := m.map Prod.fst

end GoMap

/-- Wrap-around of an integer into the `int64` range (two-complement arithmetic). -/
def wrapInt64 (x : Int) : Int := (x + 2 ^ 63) % 2 ^ 64 - 2 ^ 63

/-- Method `(*atomic.Int64).Add`: the new value of the cell. -/
def atomicAdd (x delta : Int) : Int := wrapInt64 (x + delta)

/-! ## Data model -/

/-- Record `type counters struct { getReadings, doCommands atomic.Int64 }`. -/
structure counters where
  getReadings : Int
  doCommands : Int
  deriving DecidableEq

/-- Record `type stats struct { getReadings, doCommands int64 }`. -/
structure stats where
  getReadings : Int
  doCommands : Int
  deriving DecidableEq

/-- Error value `ErrReadingsNil`: `fmt.Errorf` with two `%v` verbs applied to strings. -/
def ErrReadingsNil (sensorType sensorName : String) : GoError :=
  ⟨sensorType ++ " component " ++ sensorName ++ " Readings should not return nil readings"⟩

/-- Interface `Sensor`, reduced to the method the server calls.  `none` is the nil map. -/
structure Sensor (Ctx Extra R : Type) where
  Readings : Ctx → Extra → Except GoError (Option R)

/-- Interface `resource.APIResourceCollection[Sensor]`, reduced to `Resource`. -/
structure APIResourceCollection (S : Type) where
  Resource : String → Except GoError S

/-- Message `commonpb.GetReadingsRequest`; `Extra` stands for `req.Extra.AsMap()`. -/
structure GetReadingsRequest (Extra : Type) where
  Name : String
  Extra : Extra

/-- Message `commonpb.GetReadingsResponse`. -/
structure GetReadingsResponse (M : Type) where
  Readings : M

/-- Message `commonpb.DoCommandRequest`. -/
structure DoCommandRequest (Cmd : Type) where
  Name : String
  Command : Cmd

/-- Server state: the `counters` map of `serviceServer` and the records it points to. -/
structure serviceServer where
  counters : GoMap Nat
  heap : List sensor.counters
  deriving DecidableEq

/-- Constructor `NewRPCServiceServer`: `counters: make(map[string]*counters)`. -/
def NewRPCServiceServer : serviceServer :=
  { counters := [], heap := [] }

namespace serviceServer

/-- Method `getCounts`: the address of the record of `name`, allocated and stored first when
the map has no entry for `name`. -/
def getCounts (s : serviceServer) (name : String) : Nat × serviceServer :=
  match s.counters.index name with
  | some cnts => (cnts, s)
  | none =>
    let cnts := s.heap.length
    (cnts, { counters := s.counters.assign name cnts, heap := s.heap ++ [⟨0, 0⟩] })

/-- Update of the record at address `p`.  An address outside the heap (a nil dereference in
Go) does not occur in a well-formed store; the state is then left alone. -/
def modifyAt (s : serviceServer) (p : Nat) (f : sensor.counters → sensor.counters) :
    serviceServer :=
  match s.heap[p]? with
  | some c => { s with heap := s.heap.set p (f c) }
  | none => s

/-- Statement `cnts.getReadings.Add(delta)`. -/
def addGetReadings (s : serviceServer) (cnts : Nat) (delta : Int) : serviceServer :=
  s.modifyAt cnts
    (fun c : sensor.counters => { c with getReadings := atomicAdd c.getReadings delta })

/-- Statement `cnts.doCommands.Add(delta)`. -/
def addDoCommands (s : serviceServer) (cnts : Nat) (delta : Int) : serviceServer :=
  s.modifyAt cnts
    (fun c : sensor.counters => { c with doCommands := atomicAdd c.doCommands delta })

/-- Dereference of an address, as done by `counters.getReadings.Load()`.  The zero record
stands for an address outside the heap, which does not occur in a well-formed store. -/
def load (s : serviceServer) (p : Nat) : sensor.counters := s.heap.getD p ⟨0, 0⟩

end serviceServer

section handlers

variable {Ctx Extra R M Cmd Resp : Type}

/-- Handler `GetReadings`. -/
def GetReadings (ReadingGoToProto : R → Except GoError M) (s : serviceServer)
    (coll : APIResourceCollection (Sensor Ctx Extra R)) (ctx : Ctx)
    (req : GetReadingsRequest Extra) :
    Except GoError (GetReadingsResponse M) × serviceServer :=
  match coll.Resource req.Name with
  | .error err => (.error err, s)
  | .ok sensorDevice =>
    match sensorDevice.Readings ctx req.Extra with
    | .error err => (.error err, s)
    | .ok none => (.error (ErrReadingsNil "sensor" req.Name), s)
    | .ok (some readings) =>
      match ReadingGoToProto readings with
      | .error err => (.error err, s)
      | .ok m =>
        let (cnts, s1) := s.getCounts req.Name
        (.ok { Readings := m }, s1.addGetReadings cnts 1)

/-- Handler `DoCommand`. -/
def DoCommand
    (DoFromResourceServer :
      Ctx → Sensor Ctx Extra R → DoCommandRequest Cmd → Except GoError Resp)
    (s : serviceServer) (coll : APIResourceCollection (Sensor Ctx Extra R)) (ctx : Ctx)
    (req : DoCommandRequest Cmd) : Except GoError Resp × serviceServer :=
  match coll.Resource req.Name with
  | .error err => (.error err, s)
  | .ok sensorDevice =>
    let (cnts, s1) := s.getCounts req.Name
    (DoFromResourceServer ctx sensorDevice req, s1.addDoCommands cnts 1)

end handlers

/-- Method `Stats`: the copy loop over `s.counters` (the `fmt.Println` is not modelled). -/
def Stats (s : serviceServer) : GoMap stats × serviceServer :=
  (s.counters.foldl
      (fun ret e =>
        ret.assign e.1 { getReadings := (s.load e.2).getReadings,
                         doCommands := (s.load e.2).doCommands })
      [],
    s)

/-! ## Observations and the representation invariant -/

/-- The counters record of `n`: the record the map entry of `n` points to, if any. -/
def serviceServer.record (s : serviceServer) (n : String) : Option sensor.counters :=
  (s.counters.index n).bind fun p => s.heap[p]?

/-- Value of the `getReadings` counter of `n`, zero when `n` has no record. -/
def getReadingsCount (s : serviceServer) (n : String) : Int :=
  match s.record n with
  | some c => c.getReadings
  | none => 0

/-- Value of the `doCommands` counter of `n`, zero when `n` has no record. -/
def doCommandsCount (s : serviceServer) (n : String) : Int :=
  match s.record n with
  | some c => c.doCommands
  | none => 0

/-- Range of the Go type `int64`. -/
def isInt64 (x : Int) : Prop := -2 ^ 63 ≤ x ∧ x < 2 ^ 63

instance (x : Int) : Decidable (isInt64 x) := by
  unfold isInt64; infer_instance

/-- Well-formed counter stores: the keys of the Go map are distinct, every stored address
points to an allocated record, no two names share a record (one instance per resource
name), and every counter holds an `int64`. -/
def serviceServer.WF (s : serviceServer) : Prop :=
  s.counters.keys.Nodup ∧
  (∀ e ∈ s.counters, e.2 < s.heap.length) ∧
  (s.counters.map Prod.snd).Nodup ∧
  (∀ c ∈ s.heap, isInt64 c.getReadings ∧ isInt64 c.doCommands)

instance (s : serviceServer) : Decidable s.WF := by
  unfold serviceServer.WF; infer_instance

/-- The entry of `n` is the same in `s` and in `t`: `n` has a record in `t` iff it has one in
`s`, it is the same record, and both counters have the same values. -/
def sameEntry (s t : serviceServer) (n : String) : Prop :=
  (n ∈ t.counters.keys ↔ n ∈ s.counters.keys) ∧
  t.counters.index n = s.counters.index n ∧
  t.record n = s.record n ∧
  getReadingsCount t n = getReadingsCount s n ∧
  doCommandsCount t n = doCommandsCount s n

/-! ## Sequences of calls -/

/-- One call handled by the server, with the behaviour of the collection at that time. -/
inductive Call (Ctx Extra R Cmd : Type) where
  | getReadings (coll : APIResourceCollection (Sensor Ctx Extra R)) (ctx : Ctx)
      (req : GetReadingsRequest Extra)
  | doCommand (coll : APIResourceCollection (Sensor Ctx Extra R)) (ctx : Ctx)
      (req : DoCommandRequest Cmd)
  | stats

section runs

variable {Ctx Extra R M Cmd Resp : Type}

/-- Resource name in the request of a call. -/
def Call.target : Call Ctx Extra R Cmd → Option String
  | .getReadings _ _ req => some req.Name
  | .doCommand _ _ req => some req.Name
  | .stats => none

/-- State of the server after it has handled one call. -/
def step (ReadingGoToProto : R → Except GoError M)
    (DoFromResourceServer :
      Ctx → Sensor Ctx Extra R → DoCommandRequest Cmd → Except GoError Resp)
    (s : serviceServer) : Call Ctx Extra R Cmd → serviceServer
  | .getReadings coll ctx req => (GetReadings ReadingGoToProto s coll ctx req).2
  | .doCommand coll ctx req => (DoCommand DoFromResourceServer s coll ctx req).2
  | .stats => (Stats s).2

/-- State of the server after it has handled a sequence of calls, first call first. -/
def run (ReadingGoToProto : R → Except GoError M)
    (DoFromResourceServer :
      Ctx → Sensor Ctx Extra R → DoCommandRequest Cmd → Except GoError Resp)
    (s : serviceServer) (calls : List (Call Ctx Extra R Cmd)) : serviceServer :=
  calls.foldl (step ReadingGoToProto DoFromResourceServer) s

/-- The call is a `GetReadings` call on `n` that returns a response when handled in `s`. -/
def Call.readSucceeds (ReadingGoToProto : R → Except GoError M) (s : serviceServer)
    (n : String) : Call Ctx Extra R Cmd → Bool
  | .getReadings coll ctx req =>
    decide (req.Name = n) && (GetReadings ReadingGoToProto s coll ctx req).1.isOk
  | _ => false

/-- The call is a `DoCommand` call on `n` whose name the collection resolves. -/
def Call.commandResolves (n : String) : Call Ctx Extra R Cmd → Bool
  | .doCommand coll _ req => decide (req.Name = n) && (coll.Resource req.Name).isOk
  | _ => false

/-- Number of `GetReadings` calls on `n` that succeed while the server handles `calls`
starting in `s`. -/
def successfulReads (ReadingGoToProto : R → Except GoError M)
    (DoFromResourceServer :
      Ctx → Sensor Ctx Extra R → DoCommandRequest Cmd → Except GoError Resp)
    (n : String) : serviceServer → List (Call Ctx Extra R Cmd) → Nat
  | _, [] => 0
  | s, c :: cs =>
    (if c.readSucceeds ReadingGoToProto s n then 1 else 0) +
      successfulReads ReadingGoToProto DoFromResourceServer n
        (step ReadingGoToProto DoFromResourceServer s c) cs

/-- Some call handled while the server runs `calls` from `s` is a successful `GetReadings`
on `n` or a `DoCommand` on `n` whose name resolves. -/
def counted (ReadingGoToProto : R → Except GoError M)
    (DoFromResourceServer :
      Ctx → Sensor Ctx Extra R → DoCommandRequest Cmd → Except GoError Resp)
    (n : String) : serviceServer → List (Call Ctx Extra R Cmd) → Bool
  | _, [] => false
  | s, c :: cs =>
    (c.readSucceeds ReadingGoToProto s n || c.commandResolves n) ||
      counted ReadingGoToProto DoFromResourceServer n
        (step ReadingGoToProto DoFromResourceServer s c) cs

end runs

/-! ## Concrete collaborators and stores used to exercise the theorems -/

/-- Reading values of the examples: a number, or a Go channel (which has no wire form). -/
inductive ExValue where
  | num (x : Int)
  | chan
  deriving DecidableEq

/-- Readings of the examples, `map[string]interface{}`. -/
abbrev ExReadings := List (String × ExValue)

/-- Marshaler of the examples: rejects readings that hold a channel. -/
def exMarshal (r : ExReadings) : Except GoError ExReadings :=
  if r.all (fun e => decide (e.2 ≠ ExValue.chan)) then .ok r
  else .error ⟨"unable to convert value to proto"⟩

/-- Sensor of the examples whose `Readings` call always has the given outcome. -/
def exSensor (out : Except GoError (Option ExReadings)) : Sensor Unit Unit ExReadings :=
  ⟨fun _ _ => out⟩

/-- Sensor that reads a temperature. -/
def exTemp : Sensor Unit Unit ExReadings := exSensor (.ok (some [("temp", .num 21)]))

/-- Sensor that reads the empty mapping. -/
def exEmpty : Sensor Unit Unit ExReadings := exSensor (.ok (some []))

/-- Sensor that returns nil readings and no error. -/
def exNil : Sensor Unit Unit ExReadings := exSensor (.ok none)

/-- Sensor whose `Readings` call fails. -/
def exBroken : Sensor Unit Unit ExReadings := exSensor (.error ⟨"read failed"⟩)

/-- Sensor whose readings cannot be marshaled. -/
def exChan : Sensor Unit Unit ExReadings := exSensor (.ok (some [("c", .chan)]))

/-- Collection of the examples. -/
def exColl : APIResourceCollection (Sensor Unit Unit ExReadings) :=
  ⟨fun name =>
    if name = "sensor1" then .ok exTemp
    else if name = "empty" then .ok exEmpty
    else if name = "nilsensor" then .ok exNil
    else if name = "broken" then .ok exBroken
    else if name = "chan" then .ok exChan
    else .error ⟨"resource not found"⟩⟩

/-- Command executor of the examples: fails on the command `fail`. -/
def exDo (_ : Unit) (_ : Sensor Unit Unit ExReadings) (req : DoCommandRequest String) :
    Except GoError String :=
  if req.Command = "fail" then .error ⟨"command failed"⟩ else .ok req.Command

/-- Store with records for two names. -/
def exStore : serviceServer :=
  { counters := [("sensor1", 0), ("other", 1)], heap := [⟨3, 5⟩, ⟨7, 2⟩] }

/-- Store in which both counters of `sensor1` hold the largest `int64`. -/
def exFull : serviceServer :=
  { counters := [("sensor1", 0)], heap := [⟨2 ^ 63 - 1, 2 ^ 63 - 1⟩] }

/-- A `GetReadings` call on `sensor1`, which succeeds. -/
def exReadCall : Call Unit Unit ExReadings String :=
  .getReadings exColl () ⟨"sensor1", ()⟩

/-- Calls that all fail before the counters are touched: the name does not resolve (for
`GetReadings` and for `DoCommand`), or the sensor returns nil readings. -/
def exFailedCalls : List (Call Unit Unit ExReadings String) :=
  [.getReadings exColl () ⟨"missing", ()⟩, .doCommand exColl () ⟨"missing", "run"⟩,
    .getReadings exColl () ⟨"nilsensor", ()⟩]

/-- A mixed sequence: two successful reads of `sensor1`, a failed read of `nilsensor`, a
failing command on `empty`, a call on a name that does not resolve, and `Stats`. -/
def exCalls : List (Call Unit Unit ExReadings String) :=
  [exReadCall, .getReadings exColl () ⟨"nilsensor", ()⟩, .doCommand exColl () ⟨"empty", "fail"⟩,
    .stats, .doCommand exColl () ⟨"missing", "run"⟩, exReadCall]

/-! ## Basic facts about Go maps -/

namespace GoMap

variable {V : Type}

theorem index_eq_none_iff (m : GoMap V) (k : String) : m.index k = none ↔ k ∉ m.keys := by
  induction m with
  | nil => simp [index, keys]
  | cons e t ih =>
    obtain ⟨k', v⟩ := e
    by_cases h : k' = k
    · simp [index, keys, h]
    · have h2 : ¬ k = k' := fun e => h e.symm
      simp only [keys] at ih
      simp [index, keys, h, h2, ih]

theorem mem_of_index_eq_some {m : GoMap V} {k : String} {v : V} (h : m.index k = some v) :
    (k, v) ∈ m := by
  induction m with
  | nil => simp [index] at h
  | cons e t ih =>
    obtain ⟨k', v'⟩ := e
    by_cases hk : k' = k
    · simp [index, hk] at h
      simp [hk, h]
    · simp [index, hk] at h
      exact List.mem_cons_of_mem _ (ih h)

theorem index_of_mem {m : GoMap V} {k : String} {v : V} (hnd : m.keys.Nodup)
    (h : (k, v) ∈ m) : m.index k = some v := by
  induction m with
  | nil => simp at h
  | cons e t ih =>
    obtain ⟨k', v'⟩ := e
    simp only [keys, List.map_cons, List.nodup_cons] at hnd
    rcases List.mem_cons.1 h with heq | hmem
    · cases heq
      simp [index]
    · have hk : k' ≠ k := by
        rintro rfl
        exact hnd.1 (List.mem_map.2 ⟨(k', v), hmem, rfl⟩)
      simp only [index, hk, if_false]
      exact ih hnd.2 hmem

theorem assign_of_index_eq_none {m : GoMap V} {k : String} (v : V) (h : m.index k = none) :
    m.assign k v = m ++ [(k, v)] := by
  induction m with
  | nil => rfl
  | cons e t ih =>
    obtain ⟨k', v'⟩ := e
    by_cases hk : k' = k
    · simp [index, hk] at h
    · simp only [index, hk, if_false] at h
      simp [assign, hk, ih h]

theorem index_append_single (m : GoMap V) (k k' : String) (v : V) :
    index (m ++ [(k, v)]) k' =
      match m.index k' with
      | some w => some w
      | none => if k = k' then some v else none := by
  induction m with
  | nil => simp [index]
  | cons e t ih =>
    obtain ⟨k0, v0⟩ := e
    by_cases hk : k0 = k'
    · simp [index, hk]
    · simp only [List.cons_append, index, hk, if_false]
      exact ih

end GoMap

/-! ## Effect of `getCounts` followed by an update of the record it returns -/

namespace serviceServer

theorem getCounts_of_index_eq_some {s : serviceServer} {n : String} {p : Nat}
    (h : s.counters.index n = some p) : s.getCounts n = (p, s) := by
  simp [getCounts, h]

theorem getCounts_of_index_eq_none {s : serviceServer} {n : String}
    (h : s.counters.index n = none) :
    s.getCounts n =
      (s.heap.length,
        { counters := s.counters ++ [(n, s.heap.length)], heap := s.heap ++ [⟨0, 0⟩] }) := by
  simp [getCounts, h, GoMap.assign_of_index_eq_none]

theorem modifyAt_of_lt {s : serviceServer} {p : Nat} (f : sensor.counters → sensor.counters)
    (hp : p < s.heap.length) :
    s.modifyAt p f = { s with heap := s.heap.set p (f (s.heap.get ⟨p, hp⟩)) } := by
  simp [modifyAt, List.getElem?_eq_getElem hp]

theorem record_eq_none_iff {s : serviceServer} (hwf : s.WF) (n : String) :
    s.record n = none ↔ n ∉ s.counters.keys := by
  rw [← GoMap.index_eq_none_iff]
  cases h : s.counters.index n with
  | none => simp [record, h]
  | some p =>
    have hp : p < s.heap.length := hwf.2.1 _ (GoMap.mem_of_index_eq_some h)
    simp [record, h, List.getElem?_eq_getElem hp]

/-- After `getCounts n` and an update `f` of the record it returns, the record of `n` is `f`
applied to the record `n` had, or to the zero record when `n` had none. -/
theorem record_getCounts_modifyAt {s : serviceServer} (hwf : s.WF) (n : String)
    (f : sensor.counters → sensor.counters) :
    ((s.getCounts n).2.modifyAt (s.getCounts n).1 f).record n =
      some (f ((s.record n).getD ⟨0, 0⟩)) := by
  cases h : s.counters.index n with
  | some p =>
    have hp : p < s.heap.length := hwf.2.1 _ (GoMap.mem_of_index_eq_some h)
    rw [getCounts_of_index_eq_some h, modifyAt_of_lt f hp]
    simp [record, h, List.getElem?_eq_getElem hp, List.getElem?_set, hp]
  | none =>
    rw [getCounts_of_index_eq_none h]
    have hp : s.heap.length < (s.heap ++ [(⟨0, 0⟩ : sensor.counters)]).length := by simp
    rw [modifyAt_of_lt f hp]
    simp [record, h, GoMap.index_append_single]

/-- The update after `getCounts n` leaves the record of every other name alone. -/
theorem record_getCounts_modifyAt_ne {s : serviceServer} (hwf : s.WF) {n n' : String}
    (hne : n' ≠ n) (f : sensor.counters → sensor.counters) :
    ((s.getCounts n).2.modifyAt (s.getCounts n).1 f).record n' = s.record n' := by
  cases h : s.counters.index n with
  | some p =>
    have hmem := GoMap.mem_of_index_eq_some h
    have hp : p < s.heap.length := hwf.2.1 _ hmem
    rw [getCounts_of_index_eq_some h, modifyAt_of_lt f hp]
    cases h' : s.counters.index n' with
    | none => simp [record, h']
    | some q =>
      have hmem' := GoMap.mem_of_index_eq_some h'
      have hqp : p ≠ q := by
        rintro rfl
        have := List.inj_on_of_nodup_map hwf.2.2.1 hmem hmem' rfl
        exact hne (Prod.mk.inj this).1.symm
      simp [record, h', List.getElem?_set_ne hqp]
  | none =>
    rw [getCounts_of_index_eq_none h]
    have hp : s.heap.length < (s.heap ++ [(⟨0, 0⟩ : sensor.counters)]).length := by simp
    rw [modifyAt_of_lt f hp]
    have hne2 : ¬ n = n' := fun e => hne e.symm
    cases h' : s.counters.index n' with
    | none => simp [record, h', GoMap.index_append_single, hne2]
    | some q =>
      have hq : q < s.heap.length := hwf.2.1 _ (GoMap.mem_of_index_eq_some h')
      have hqp : s.heap.length ≠ q := by omega
      simp [record, h', GoMap.index_append_single, List.getElem?_set_ne hqp,
        List.getElem?_append_left hq]

/-- The update after `getCounts n` leaves the map entry of every other name alone. -/
theorem index_getCounts_modifyAt_ne (s : serviceServer) {n n' : String}
    (hne : n' ≠ n) (f : sensor.counters → sensor.counters) :
    ((s.getCounts n).2.modifyAt (s.getCounts n).1 f).counters.index n' =
      s.counters.index n' := by
  have hmod : ∀ (t : serviceServer) (p : Nat), (t.modifyAt p f).counters = t.counters := by
    intro t p
    unfold modifyAt
    split <;> rfl
  rw [hmod]
  cases h : s.counters.index n with
  | some p => rw [getCounts_of_index_eq_some h]
  | none =>
    rw [getCounts_of_index_eq_none h]
    have hne2 : ¬ n = n' := fun e => hne e.symm
    cases h' : s.counters.index n' <;> simp [GoMap.index_append_single, h', hne2]

/-- Keys of the map after `getCounts n` and an update: `n` is added at most once. -/
theorem keys_getCounts_modifyAt (s : serviceServer) (n : String)
    (f : sensor.counters → sensor.counters) :
    ((s.getCounts n).2.modifyAt (s.getCounts n).1 f).counters.keys =
      if n ∈ s.counters.keys then s.counters.keys else s.counters.keys ++ [n] := by
  have hmod : ∀ (t : serviceServer) (p : Nat), (t.modifyAt p f).counters = t.counters := by
    intro t p
    unfold modifyAt
    split <;> rfl
  rw [hmod]
  cases h : s.counters.index n with
  | some p =>
    have hin : n ∈ s.counters.keys := by
      by_contra hc
      rw [(GoMap.index_eq_none_iff _ _).2 hc] at h
      cases h
    rw [getCounts_of_index_eq_some h, if_pos hin]
  | none =>
    have hin : n ∉ s.counters.keys := (GoMap.index_eq_none_iff _ _).1 h
    rw [getCounts_of_index_eq_none h, if_neg hin]
    simp [GoMap.keys]

/-- The representation invariant survives `getCounts` followed by an update that keeps
the counters in the `int64` range. -/
theorem WF_getCounts_modifyAt {s : serviceServer} (hwf : s.WF) (n : String)
    (f : sensor.counters → sensor.counters)
    (hf : ∀ c : sensor.counters, isInt64 c.getReadings ∧ isInt64 c.doCommands →
      isInt64 (f c).getReadings ∧ isInt64 (f c).doCommands) :
    ((s.getCounts n).2.modifyAt (s.getCounts n).1 f).WF := by
  obtain ⟨hk, hv, hi, hr⟩ := hwf
  have hz : isInt64 (0 : Int) := by decide
  cases h : s.counters.index n with
  | some p =>
    have hp : p < s.heap.length := hv _ (GoMap.mem_of_index_eq_some h)
    rw [getCounts_of_index_eq_some h, modifyAt_of_lt f hp]
    refine ⟨hk, ?_, hi, ?_⟩
    · intro e he
      simpa using hv e he
    · intro c hc
      rcases List.mem_or_eq_of_mem_set hc with hc | rfl
      · exact hr c hc
      · exact hf _ (hr _ (List.get_mem _ _ _))
  | none =>
    have hin : n ∉ s.counters.keys := (GoMap.index_eq_none_iff _ _).1 h
    rw [getCounts_of_index_eq_none h]
    have hp : s.heap.length < (s.heap ++ [(⟨0, 0⟩ : sensor.counters)]).length := by simp
    rw [modifyAt_of_lt f hp]
    refine ⟨?_, ?_, ?_, ?_⟩
    · simp only [GoMap.keys, List.map_append, List.map_cons, List.map_nil]
      refine List.Nodup.append hk (List.nodup_singleton _) ?_
      simpa [GoMap.keys] using hin
    · intro e he
      simp only [List.mem_append, List.mem_singleton] at he
      simp only [List.length_set, List.length_append, List.length_singleton]
      rcases he with he | rfl
      · exact Nat.lt_succ_of_lt (hv e he)
      · exact Nat.lt_succ_self _
    · simp only [List.map_append, List.map_cons, List.map_nil]
      refine List.Nodup.append hi (List.nodup_singleton _) ?_
      intro q hq hq2
      rw [List.mem_singleton] at hq2
      obtain ⟨e, he, heq⟩ := List.mem_map.1 hq
      have := hv e he
      omega
    · intro c hc
      rcases List.mem_or_eq_of_mem_set hc with hc | rfl
      · simp only [List.mem_append, List.mem_singleton] at hc
        rcases hc with hc | rfl
        · exact hr c hc
        · exact ⟨hz, hz⟩
      · refine hf _ ?_
        simp [hz]

/-- Sequential get-or-create: the address `getCounts n` returns is the one stored for `n`
afterwards, a second `getCounts n` returns the same address and changes nothing, and a
name without an entry gets exactly one new record, holding zeros. -/
theorem getCounts_get_or_create (s : serviceServer) (n : String) :
    (s.getCounts n).2.counters.index n = some (s.getCounts n).1 ∧
      (s.getCounts n).2.getCounts n = s.getCounts n ∧
      (s.counters.index n = none →
        (s.getCounts n).2.heap = s.heap ++ [⟨0, 0⟩] ∧
        (s.getCounts n).2.counters = s.counters ++ [(n, s.heap.length)]) := by
  cases h : s.counters.index n with
  | some p =>
    rw [getCounts_of_index_eq_some h]
    exact ⟨h, getCounts_of_index_eq_some h, fun hc => by cases hc⟩
  | none =>
    rw [getCounts_of_index_eq_none h]
    have hidx : GoMap.index (s.counters ++ [(n, s.heap.length)]) n = some s.heap.length := by
      simp [GoMap.index_append_single, h]
    exact ⟨hidx, getCounts_of_index_eq_some hidx, fun _ => ⟨rfl, rfl⟩⟩

end serviceServer

/-! ## Arithmetic of `atomic.Int64` -/

theorem wrapInt64_isInt64 (x : Int) : isInt64 (wrapInt64 x) := by
  unfold isInt64 wrapInt64
  constructor <;> omega

theorem wrapInt64_of_isInt64 {x : Int} (h : isInt64 x) : wrapInt64 x = x := by
  unfold isInt64 at h
  unfold wrapInt64
  omega

theorem atomicAdd_one_of_lt {x : Int} (h : isInt64 x) (hlt : x < 2 ^ 63 - 1) :
    atomicAdd x 1 = x + 1 := by
  unfold isInt64 at h
  unfold atomicAdd wrapInt64
  omega

/-! ## The handlers, path by path -/

section paths

variable {Ctx Extra R M Cmd Resp : Type}

theorem GetReadings_of_resolve_error (marshal : R → Except GoError M) (s : serviceServer)
    (coll : APIResourceCollection (Sensor Ctx Extra R)) (ctx : Ctx)
    (req : GetReadingsRequest Extra) {e : GoError} (h : coll.Resource req.Name = .error e) :
    GetReadings marshal s coll ctx req = (.error e, s) := by
  simp [GetReadings, h]

theorem GetReadings_of_read_error (marshal : R → Except GoError M) (s : serviceServer)
    (coll : APIResourceCollection (Sensor Ctx Extra R)) (ctx : Ctx)
    (req : GetReadingsRequest Extra) {dev : Sensor Ctx Extra R} {e : GoError}
    (h : coll.Resource req.Name = .ok dev) (hr : dev.Readings ctx req.Extra = .error e) :
    GetReadings marshal s coll ctx req = (.error e, s) := by
  simp [GetReadings, h, hr]

theorem GetReadings_of_nil (marshal : R → Except GoError M) (s : serviceServer)
    (coll : APIResourceCollection (Sensor Ctx Extra R)) (ctx : Ctx)
    (req : GetReadingsRequest Extra) {dev : Sensor Ctx Extra R}
    (h : coll.Resource req.Name = .ok dev) (hr : dev.Readings ctx req.Extra = .ok none) :
    GetReadings marshal s coll ctx req = (.error (ErrReadingsNil "sensor" req.Name), s) := by
  simp [GetReadings, h, hr]

theorem GetReadings_of_marshal_error (marshal : R → Except GoError M) (s : serviceServer)
    (coll : APIResourceCollection (Sensor Ctx Extra R)) (ctx : Ctx)
    (req : GetReadingsRequest Extra) {dev : Sensor Ctx Extra R} {r : R} {e : GoError}
    (h : coll.Resource req.Name = .ok dev) (hr : dev.Readings ctx req.Extra = .ok (some r))
    (hm : marshal r = .error e) :
    GetReadings marshal s coll ctx req = (.error e, s) := by
  simp [GetReadings, h, hr, hm]

theorem GetReadings_of_success (marshal : R → Except GoError M) (s : serviceServer)
    (coll : APIResourceCollection (Sensor Ctx Extra R)) (ctx : Ctx)
    (req : GetReadingsRequest Extra) {dev : Sensor Ctx Extra R} {r : R} {m : M}
    (h : coll.Resource req.Name = .ok dev) (hr : dev.Readings ctx req.Extra = .ok (some r))
    (hm : marshal r = .ok m) :
    GetReadings marshal s coll ctx req =
      (.ok { Readings := m },
        (s.getCounts req.Name).2.addGetReadings (s.getCounts req.Name).1 1) := by
  simp [GetReadings, h, hr, hm]

/-- A `GetReadings` call either fails and leaves the state alone, or succeeds and bumps the
`getReadings` counter of the record `getCounts` returns. -/
theorem GetReadings_cases (marshal : R → Except GoError M) (s : serviceServer)
    (coll : APIResourceCollection (Sensor Ctx Extra R)) (ctx : Ctx)
    (req : GetReadingsRequest Extra) :
    ((GetReadings marshal s coll ctx req).1.isOk = false ∧
        (GetReadings marshal s coll ctx req).2 = s) ∨
      ((GetReadings marshal s coll ctx req).1.isOk = true ∧
        (GetReadings marshal s coll ctx req).2 =
          (s.getCounts req.Name).2.addGetReadings (s.getCounts req.Name).1 1) := by
  cases h : coll.Resource req.Name with
  | error e => left; simp [GetReadings, h, Except.isOk, Except.toBool]
  | ok dev =>
    cases hr : dev.Readings ctx req.Extra with
    | error e => left; simp [GetReadings, h, hr, Except.isOk, Except.toBool]
    | ok o =>
      cases o with
      | none => left; simp [GetReadings, h, hr, Except.isOk, Except.toBool]
      | some r =>
        cases hm : marshal r with
        | error e => left; simp [GetReadings, h, hr, hm, Except.isOk, Except.toBool]
        | ok m => right; simp [GetReadings, h, hr, hm, Except.isOk, Except.toBool]

theorem DoCommand_of_resolve_error
    (doFrom : Ctx → Sensor Ctx Extra R → DoCommandRequest Cmd → Except GoError Resp)
    (s : serviceServer) (coll : APIResourceCollection (Sensor Ctx Extra R)) (ctx : Ctx)
    (req : DoCommandRequest Cmd) {e : GoError} (h : coll.Resource req.Name = .error e) :
    DoCommand doFrom s coll ctx req = (.error e, s) := by
  simp [DoCommand, h]

theorem DoCommand_of_resolve_ok
    (doFrom : Ctx → Sensor Ctx Extra R → DoCommandRequest Cmd → Except GoError Resp)
    (s : serviceServer) (coll : APIResourceCollection (Sensor Ctx Extra R)) (ctx : Ctx)
    (req : DoCommandRequest Cmd) {dev : Sensor Ctx Extra R}
    (h : coll.Resource req.Name = .ok dev) :
    DoCommand doFrom s coll ctx req =
      (doFrom ctx dev req,
        (s.getCounts req.Name).2.addDoCommands (s.getCounts req.Name).1 1) := by
  simp [DoCommand, h]

/-- A `DoCommand` call leaves the state alone when the name does not resolve and bumps the
`doCommands` counter of the record `getCounts` returns when it does. -/
theorem DoCommand_cases
    (doFrom : Ctx → Sensor Ctx Extra R → DoCommandRequest Cmd → Except GoError Resp)
    (s : serviceServer) (coll : APIResourceCollection (Sensor Ctx Extra R)) (ctx : Ctx)
    (req : DoCommandRequest Cmd) :
    ((coll.Resource req.Name).isOk = false ∧ (DoCommand doFrom s coll ctx req).2 = s) ∨
      ((coll.Resource req.Name).isOk = true ∧
        (DoCommand doFrom s coll ctx req).2 =
          (s.getCounts req.Name).2.addDoCommands (s.getCounts req.Name).1 1) := by
  cases h : coll.Resource req.Name with
  | error e => left; simp [DoCommand, h, Except.isOk, Except.toBool]
  | ok dev => right; simp [DoCommand, h, Except.isOk, Except.toBool]

end paths

/-! ## Counter values after a counted call -/

namespace serviceServer

theorem isInt64_of_record {s : serviceServer} (hwf : s.WF) {n : String} {c : sensor.counters}
    (h : s.record n = some c) : isInt64 c.getReadings ∧ isInt64 c.doCommands := by
  unfold record at h
  cases hi : s.counters.index n with
  | none => simp [hi] at h
  | some p =>
    simp only [hi, Option.some_bind] at h
    exact hwf.2.2.2 c (List.getElem?_mem h)

theorem counts_addGetReadings {s : serviceServer} (hwf : s.WF) (n : String) :
    getReadingsCount ((s.getCounts n).2.addGetReadings (s.getCounts n).1 1) n =
        atomicAdd (getReadingsCount s n) 1 ∧
      doCommandsCount ((s.getCounts n).2.addGetReadings (s.getCounts n).1 1) n =
        doCommandsCount s n := by
  unfold addGetReadings
  simp only [getReadingsCount, doCommandsCount, record_getCounts_modifyAt hwf]
  cases s.record n <;> simp

theorem counts_addDoCommands {s : serviceServer} (hwf : s.WF) (n : String) :
    doCommandsCount ((s.getCounts n).2.addDoCommands (s.getCounts n).1 1) n =
        atomicAdd (doCommandsCount s n) 1 ∧
      getReadingsCount ((s.getCounts n).2.addDoCommands (s.getCounts n).1 1) n =
        getReadingsCount s n := by
  unfold addDoCommands
  simp only [getReadingsCount, doCommandsCount, record_getCounts_modifyAt hwf]
  cases s.record n <;> simp

theorem isInt64_getReadingsCount {s : serviceServer} (hwf : s.WF) (n : String) :
    isInt64 (getReadingsCount s n) := by
  unfold getReadingsCount
  cases h : s.record n with
  | none => decide
  | some c => exact (isInt64_of_record hwf h).1

theorem isInt64_doCommandsCount {s : serviceServer} (hwf : s.WF) (n : String) :
    isInt64 (doCommandsCount s n) := by
  unfold doCommandsCount
  cases h : s.record n with
  | none => decide
  | some c => exact (isInt64_of_record hwf h).2

end serviceServer

/-! ## Claims about a single call -/

section claims

variable {Ctx Extra R M Cmd Resp : Type}

/-- C1: when the name resolves and `GetReadings` fails because the `Readings` call of the
sensor returns an error, because the readings are nil, or because `ReadingGoToProto` returns an
error, the call returns an error and the counter store after the call is the store before
it: the `getReadings` count of the name is the same and the name has the same record, or
still none. -/
theorem getReadings_failure_leaves_store (marshal : R → Except GoError M) (s : serviceServer)
    (coll : APIResourceCollection (Sensor Ctx Extra R)) (ctx : Ctx)
    (req : GetReadingsRequest Extra) (dev : Sensor Ctx Extra R)
    (hres : coll.Resource req.Name = .ok dev)
    (hfail : (∃ e, dev.Readings ctx req.Extra = .error e) ∨
      dev.Readings ctx req.Extra = .ok none ∨
      (∃ r e, dev.Readings ctx req.Extra = .ok (some r) ∧ marshal r = .error e)) :
    (∃ e, (GetReadings marshal s coll ctx req).1 = .error e) ∧
      (GetReadings marshal s coll ctx req).2 = s ∧
      getReadingsCount (GetReadings marshal s coll ctx req).2 req.Name =
        getReadingsCount s req.Name ∧
      (GetReadings marshal s coll ctx req).2.record req.Name = s.record req.Name ∧
      (GetReadings marshal s coll ctx req).2.counters.index req.Name =
        s.counters.index req.Name := by
  rcases hfail with ⟨e, he⟩ | hnil | ⟨r, e, hr, hm⟩
  · rw [GetReadings_of_read_error marshal s coll ctx req hres he]
    exact ⟨⟨e, rfl⟩, rfl, rfl, rfl, rfl⟩
  · rw [GetReadings_of_nil marshal s coll ctx req hres hnil]
    exact ⟨⟨_, rfl⟩, rfl, rfl, rfl, rfl⟩
  · rw [GetReadings_of_marshal_error marshal s coll ctx req hres hr hm]
    exact ⟨⟨e, rfl⟩, rfl, rfl, rfl, rfl⟩

/-- C2, amended: on a well-formed store, a `DoCommand` call on a name that resolves and whose
`doCommands` count is below the largest `int64` returns what the command executor returns,
raises the `doCommands` count of the name by exactly 1 (from a fresh zero record when the
name had none) and leaves its `getReadings` count unchanged, whatever the executor does. -/
theorem doCommand_counts_attempt
    (doFrom : Ctx → Sensor Ctx Extra R → DoCommandRequest Cmd → Except GoError Resp)
    (s : serviceServer) (coll : APIResourceCollection (Sensor Ctx Extra R)) (ctx : Ctx)
    (req : DoCommandRequest Cmd) (dev : Sensor Ctx Extra R) (hwf : s.WF)
    (hres : coll.Resource req.Name = .ok dev)
    (hlt : doCommandsCount s req.Name < 2 ^ 63 - 1) :
    (DoCommand doFrom s coll ctx req).1 = doFrom ctx dev req ∧
      doCommandsCount (DoCommand doFrom s coll ctx req).2 req.Name =
        doCommandsCount s req.Name + 1 ∧
      getReadingsCount (DoCommand doFrom s coll ctx req).2 req.Name =
        getReadingsCount s req.Name ∧
      (s.record req.Name = none →
        (DoCommand doFrom s coll ctx req).2.record req.Name = some ⟨0, 1⟩) := by
  rw [DoCommand_of_resolve_ok doFrom s coll ctx req hres]
  have hc := serviceServer.counts_addDoCommands hwf req.Name
  refine ⟨rfl, ?_, hc.2, ?_⟩
  · rw [hc.1]
    exact atomicAdd_one_of_lt (serviceServer.isInt64_doCommandsCount hwf _) hlt
  · intro hnone
    show ((s.getCounts req.Name).2.addDoCommands (s.getCounts req.Name).1 1).record req.Name = _
    unfold serviceServer.addDoCommands
    rw [serviceServer.record_getCounts_modifyAt hwf, hnone]
    rfl

/-- C3: when the resolver returns an error `e` for a name, `GetReadings` and `DoCommand` on
that name both return no response and exactly `e`, and the state after the call is the
state before it, so the name has the same record as before, or still none. -/
theorem resolver_error_returned_unchanged (marshal : R → Except GoError M)
    (doFrom : Ctx → Sensor Ctx Extra R → DoCommandRequest Cmd → Except GoError Resp)
    (s : serviceServer) (coll : APIResourceCollection (Sensor Ctx Extra R)) (ctx : Ctx)
    (n : String) (extra : Extra) (cmd : Cmd) (e : GoError)
    (hres : coll.Resource n = .error e) :
    GetReadings marshal s coll ctx ⟨n, extra⟩ = (.error e, s) ∧
      DoCommand doFrom s coll ctx ⟨n, cmd⟩ = (.error e, s) ∧
      (GetReadings marshal s coll ctx ⟨n, extra⟩).2.counters.index n = s.counters.index n ∧
      (DoCommand doFrom s coll ctx ⟨n, cmd⟩).2.counters.index n = s.counters.index n := by
  have hg := GetReadings_of_resolve_error marshal s coll ctx ⟨n, extra⟩ hres
  have hd := DoCommand_of_resolve_error doFrom s coll ctx ⟨n, cmd⟩ hres
  refine ⟨hg, hd, ?_, ?_⟩
  · rw [hg]
  · rw [hd]

/-- C4, amended: on a well-formed store, when the name resolves, the sensor returns non-nil
readings `r` without error, `ReadingGoToProto r` succeeds with `m` and the `getReadings`
count of the name is below the largest `int64`, `GetReadings` returns no error and a
response whose readings are exactly `m`, the `getReadings` count of the name is exactly 1
greater than before (1 if the name had no record), and its `doCommands` count is
unchanged. -/
theorem getReadings_success_counts (marshal : R → Except GoError M) (s : serviceServer)
    (coll : APIResourceCollection (Sensor Ctx Extra R)) (ctx : Ctx)
    (req : GetReadingsRequest Extra) (dev : Sensor Ctx Extra R) (r : R) (m : M)
    (hwf : s.WF) (hres : coll.Resource req.Name = .ok dev)
    (hread : dev.Readings ctx req.Extra = .ok (some r)) (hm : marshal r = .ok m)
    (hlt : getReadingsCount s req.Name < 2 ^ 63 - 1) :
    (GetReadings marshal s coll ctx req).1 = .ok { Readings := m } ∧
      getReadingsCount (GetReadings marshal s coll ctx req).2 req.Name =
        getReadingsCount s req.Name + 1 ∧
      (s.record req.Name = none →
        getReadingsCount (GetReadings marshal s coll ctx req).2 req.Name = 1) ∧
      doCommandsCount (GetReadings marshal s coll ctx req).2 req.Name =
        doCommandsCount s req.Name := by
  rw [GetReadings_of_success marshal s coll ctx req hres hread hm]
  have hc := serviceServer.counts_addGetReadings hwf req.Name
  have h1 : getReadingsCount
      ((s.getCounts req.Name).2.addGetReadings (s.getCounts req.Name).1 1) req.Name =
      getReadingsCount s req.Name + 1 := by
    rw [hc.1]
    exact atomicAdd_one_of_lt (serviceServer.isInt64_getReadingsCount hwf _) hlt
  refine ⟨rfl, h1, ?_, hc.2⟩
  intro hnone
  show getReadingsCount
    ((s.getCounts req.Name).2.addGetReadings (s.getCounts req.Name).1 1) req.Name = 1
  rw [h1]
  simp [getReadingsCount, hnone]

/-- C5: when the name `n` resolves and the sensor returns nil readings with no error,
`GetReadings` returns no response and the error `ErrReadingsNil "sensor" n`, whatever the
marshaler is; the message of that error is
`sensor component <n> Readings should not return nil readings` and contains `n`. -/
theorem getReadings_nil_readings (marshal : R → Except GoError M) (s : serviceServer)
    (coll : APIResourceCollection (Sensor Ctx Extra R)) (ctx : Ctx)
    (req : GetReadingsRequest Extra) (dev : Sensor Ctx Extra R)
    (hres : coll.Resource req.Name = .ok dev)
    (hnil : dev.Readings ctx req.Extra = .ok none) :
    (GetReadings marshal s coll ctx req).1 = .error (ErrReadingsNil "sensor" req.Name) ∧
      (∀ marshal2 : R → Except GoError M,
        GetReadings marshal2 s coll ctx req = GetReadings marshal s coll ctx req) ∧
      (ErrReadingsNil "sensor" req.Name).msg =
        "sensor component " ++ req.Name ++ " Readings should not return nil readings" ∧
      req.Name.data <:+: (ErrReadingsNil "sensor" req.Name).msg.data := by
  refine ⟨?_, ?_, ?_, ?_⟩
  · rw [GetReadings_of_nil marshal s coll ctx req hres hnil]
  · intro marshal2
    rw [GetReadings_of_nil marshal s coll ctx req hres hnil,
      GetReadings_of_nil marshal2 s coll ctx req hres hnil]
  · simp [ErrReadingsNil, String.append_assoc]
  · refine ⟨"sensor component ".data, " Readings should not return nil readings".data, ?_⟩
    simp [ErrReadingsNil, String.data_append]

theorem sameEntry_refl (s : serviceServer) (n : String) : sameEntry s s n :=
  ⟨Iff.rfl, rfl, rfl, rfl, rfl⟩

theorem sameEntry_getCounts_modifyAt {s : serviceServer} (hwf : s.WF) {n n2 : String}
    (hne : n2 ≠ n) (f : counters → counters) :
    sameEntry s ((s.getCounts n).2.modifyAt (s.getCounts n).1 f) n2 := by
  have hrec := serviceServer.record_getCounts_modifyAt_ne hwf hne f
  refine ⟨?_, serviceServer.index_getCounts_modifyAt_ne s hne f, hrec, ?_, ?_⟩
  · rw [serviceServer.keys_getCounts_modifyAt]
    split
    · exact Iff.rfl
    · simp [hne]
  · simp only [getReadingsCount, hrec]
  · simp only [doCommandsCount, hrec]

/-- C6: on a well-formed store, a `GetReadings` or `DoCommand` call whose request names
`n1` leaves the entry of every other name `n2` untouched, whatever the outcome of the call:
`n2` has a record after the call iff it had one before, and its `getReadings` and
`doCommands` values are the same. -/
theorem calls_leave_other_names_untouched (marshal : R → Except GoError M)
    (doFrom : Ctx → Sensor Ctx Extra R → DoCommandRequest Cmd → Except GoError Resp)
    (s : serviceServer) (coll : APIResourceCollection (Sensor Ctx Extra R)) (ctx : Ctx)
    (n1 n2 : String) (extra : Extra) (cmd : Cmd) (hwf : s.WF) (hne : n1 ≠ n2) :
    sameEntry s (GetReadings marshal s coll ctx ⟨n1, extra⟩).2 n2 ∧
      sameEntry s (DoCommand doFrom s coll ctx ⟨n1, cmd⟩).2 n2 := by
  constructor
  · rcases GetReadings_cases marshal s coll ctx ⟨n1, extra⟩ with ⟨_, h⟩ | ⟨_, h⟩
    · rw [h]; exact sameEntry_refl s n2
    · rw [h]; exact sameEntry_getCounts_modifyAt hwf (Ne.symm hne) _
  · rcases DoCommand_cases doFrom s coll ctx ⟨n1, cmd⟩ with ⟨_, h⟩ | ⟨_, h⟩
    · rw [h]; exact sameEntry_refl s n2
    · rw [h]; exact sameEntry_getCounts_modifyAt hwf (Ne.symm hne) _

/-! ### The theorems at concrete inputs -/

theorem getReadings_failure_leaves_store_witness :
    (GetReadings exMarshal exStore exColl () ⟨"chan", ()⟩).2 = exStore ∧
      (GetReadings exMarshal exStore exColl () ⟨"nilsensor", ()⟩).2 = exStore ∧
      (GetReadings exMarshal exStore exColl () ⟨"broken", ()⟩).2 = exStore :=
  ⟨(getReadings_failure_leaves_store exMarshal exStore exColl () ⟨"chan", ()⟩ exChan
      (by rfl) (Or.inr (Or.inr ⟨[("c", .chan)], ⟨"unable to convert value to proto"⟩,
        rfl, by rfl⟩))).2.1,
    (getReadings_failure_leaves_store exMarshal exStore exColl () ⟨"nilsensor", ()⟩ exNil
      (by rfl) (Or.inr (Or.inl rfl))).2.1,
    (getReadings_failure_leaves_store exMarshal exStore exColl () ⟨"broken", ()⟩ exBroken
      (by rfl) (Or.inl ⟨⟨"read failed"⟩, rfl⟩)).2.1⟩

theorem doCommand_counts_attempt_witness :
    doCommandsCount exStore "sensor1" = 5 ∧
      doCommandsCount (DoCommand exDo exStore exColl () ⟨"sensor1", "fail"⟩).2 "sensor1" =
        doCommandsCount exStore "sensor1" + 1 ∧
      (DoCommand exDo exStore exColl () ⟨"sensor1", "fail"⟩).1 =
        exDo () exTemp ⟨"sensor1", "fail"⟩ :=
  have h := doCommand_counts_attempt exDo exStore exColl () ⟨"sensor1", "fail"⟩ exTemp
    (by decide) (by rfl) (by decide)
  ⟨by decide, h.2.1, h.1⟩

/-- C2 as stated fails when the `doCommands` counter of the name holds the largest `int64`:
the atomic add wraps around to the smallest `int64` instead of increasing the count by 1. -/
theorem doCommand_wraps_at_max_int64 :
    exFull.WF ∧ exColl.Resource "sensor1" = .ok exTemp ∧
      doCommandsCount exFull "sensor1" = 9223372036854775807 ∧
      doCommandsCount (DoCommand exDo exFull exColl () ⟨"sensor1", "run"⟩).2 "sensor1" =
        -9223372036854775808 ∧
      doCommandsCount (DoCommand exDo exFull exColl () ⟨"sensor1", "run"⟩).2 "sensor1" ≠
        doCommandsCount exFull "sensor1" + 1 := by
  refine ⟨by decide, by rfl, by decide, by decide, by decide⟩

theorem resolver_error_returned_unchanged_witness :
    GetReadings exMarshal exStore exColl () ⟨"missing", ()⟩ =
        (.error ⟨"resource not found"⟩, exStore) ∧
      DoCommand exDo exStore exColl () ⟨"missing", "run"⟩ =
        (.error ⟨"resource not found"⟩, exStore) ∧
      exStore.counters.index "missing" = none :=
  have h := resolver_error_returned_unchanged exMarshal exDo exStore exColl () "missing" ()
    "run" ⟨"resource not found"⟩ (by rfl)
  ⟨h.1, h.2.1, by decide⟩

theorem getReadings_success_counts_witness :
    (GetReadings exMarshal NewRPCServiceServer exColl () ⟨"sensor1", ()⟩).1 =
        .ok { Readings := [("temp", .num 21)] } ∧
      getReadingsCount
        (GetReadings exMarshal NewRPCServiceServer exColl () ⟨"sensor1", ()⟩).2 "sensor1" = 1 ∧
      (GetReadings exMarshal exStore exColl () ⟨"empty", ()⟩).1 = .ok { Readings := [] } ∧
      getReadingsCount (GetReadings exMarshal exStore exColl () ⟨"empty", ()⟩).2 "empty" = 1 :=
  have h := getReadings_success_counts exMarshal NewRPCServiceServer exColl ()
    ⟨"sensor1", ()⟩ exTemp [("temp", .num 21)] [("temp", .num 21)]
    (by decide) (by rfl) (by rfl) (by rfl) (by decide)
  have h2 := getReadings_success_counts exMarshal exStore exColl ()
    ⟨"empty", ()⟩ exEmpty [] [] (by decide) (by rfl) (by rfl) (by rfl) (by decide)
  ⟨h.1, h.2.2.1 (by rfl), h2.1, h2.2.2.1 (by rfl)⟩

/-- C4 as stated fails when the `getReadings` counter of the name holds the largest `int64`:
the call succeeds and the atomic add wraps around to the smallest `int64`. -/
theorem getReadings_wraps_at_max_int64 :
    exFull.WF ∧ exColl.Resource "sensor1" = .ok exTemp ∧
      exTemp.Readings () () = .ok (some [("temp", .num 21)]) ∧
      exMarshal [("temp", .num 21)] = .ok [("temp", .num 21)] ∧
      getReadingsCount exFull "sensor1" = 9223372036854775807 ∧
      getReadingsCount (GetReadings exMarshal exFull exColl () ⟨"sensor1", ()⟩).2 "sensor1" =
        -9223372036854775808 ∧
      getReadingsCount (GetReadings exMarshal exFull exColl () ⟨"sensor1", ()⟩).2 "sensor1" ≠
        getReadingsCount exFull "sensor1" + 1 := by
  refine ⟨by decide, by rfl, by rfl, by rfl, by decide, by decide, by decide⟩

theorem getReadings_nil_readings_witness :
    (GetReadings exMarshal exStore exColl () ⟨"nilsensor", ()⟩).1 =
        .error ⟨"sensor component nilsensor Readings should not return nil readings"⟩ ∧
      "nilsensor".data <:+: (ErrReadingsNil "sensor" "nilsensor").msg.data :=
  have h := getReadings_nil_readings exMarshal exStore exColl () ⟨"nilsensor", ()⟩ exNil
    (by rfl) (by rfl)
  ⟨h.1, h.2.2.2⟩

theorem calls_leave_other_names_untouched_witness :
    sameEntry exStore (GetReadings exMarshal exStore exColl () ⟨"sensor1", ()⟩).2 "other" ∧
      sameEntry exStore (DoCommand exDo exStore exColl () ⟨"sensor1", "run"⟩).2 "other" ∧
      getReadingsCount (GetReadings exMarshal exStore exColl () ⟨"sensor1", ()⟩).2 "other" = 7 :=
  have h := calls_leave_other_names_untouched exMarshal exDo exStore exColl () "sensor1"
    "other" () "run" (by decide) (by decide)
  ⟨h.1, h.2, h.1.2.2.2.1.trans (by decide)⟩

end claims

/-! ## The copy loop of `Stats` -/

namespace GoMap

variable {V W : Type}

theorem foldl_assign_eq_append_map (g : V → W) (l : GoMap V) :
    ∀ acc : GoMap W, (acc.keys ++ l.keys).Nodup →
      l.foldl (fun ret e => ret.assign e.1 (g e.2)) acc =
        acc ++ l.map (fun e => (e.1, g e.2)) := by
  induction l with
  | nil => intro acc _; simp
  | cons e t ih =>
    intro acc hnd
    obtain ⟨k, v⟩ := e
    have hk : k ∉ acc.keys := by
      intro hmem
      have hdis := List.disjoint_of_nodup_append hnd
      exact hdis hmem (by simp [keys])
    have hassign : acc.assign k (g v) = acc ++ [(k, g v)] :=
      assign_of_index_eq_none _ ((index_eq_none_iff _ _).2 hk)
    have hnd2 : ((acc ++ [(k, g v)]).keys ++ keys t).Nodup := by
      simpa [keys, List.append_assoc] using hnd
    simp only [List.foldl_cons, hassign]
    rw [ih _ hnd2]
    simp

theorem index_map_snd (g : V → W) (m : GoMap V) (k : String) :
    index (m.map fun e => (e.1, g e.2)) k = (m.index k).map g := by
  induction m with
  | nil => rfl
  | cons e t ih =>
    obtain ⟨k', v⟩ := e
    by_cases h : k' = k
    · simp [index, h]
    · simp only [List.map_cons, index, h, if_false]
      exact ih

end GoMap

/-- On a store whose keys are distinct, `Stats` returns one entry per entry of the counters
map, in the same order, holding the values loaded through the stored address. -/
theorem Stats_eq_map {s : serviceServer} (hnd : s.counters.keys.Nodup) :
    (Stats s).1 =
      s.counters.map fun e =>
        (e.1, ({ getReadings := (s.load e.2).getReadings,
                 doCommands := (s.load e.2).doCommands } : stats)) := by
  have h := GoMap.foldl_assign_eq_append_map
    (fun p => ({ getReadings := (s.load p).getReadings,
                 doCommands := (s.load p).doCommands } : stats)) s.counters []
    (by simpa [GoMap.keys] using hnd)
  simpa [Stats] using h

theorem Stats_index_of_record {s : serviceServer} (hwf : s.WF) {n : String} {c : counters}
    (h : s.record n = some c) :
    (Stats s).1.index n = some { getReadings := c.getReadings, doCommands := c.doCommands } := by
  rw [Stats_eq_map hwf.1]
  rw [GoMap.index_map_snd
    (fun p => ({ getReadings := (s.load p).getReadings,
                 doCommands := (s.load p).doCommands } : stats))]
  unfold serviceServer.record at h
  cases hi : s.counters.index n with
  | none => simp [hi] at h
  | some p =>
    simp only [hi, Option.some_bind] at h
    simp [serviceServer.load, List.getD, h]

theorem Stats_keys {s : serviceServer} (hwf : s.WF) : (Stats s).1.keys = s.counters.keys := by
  rw [Stats_eq_map hwf.1]
  simp [GoMap.keys]

/-- C9: on a well-formed store, `Stats` returns a copy of the counter store: the keys of the
returned map are distinct and are exactly the names that have a counters record, each entry
holds the current `getReadings` and `doCommands` values of the record of its name, a name
without a record has no entry, and `Stats` leaves the state as it is; for a fresh server
the returned map is empty. -/
theorem stats_is_point_in_time_copy (s : serviceServer) (hwf : s.WF) :
    (Stats s).1.keys.Nodup ∧
      (∀ n, n ∈ (Stats s).1.keys ↔ s.record n ≠ none) ∧
      (∀ n c, s.record n = some c →
        (Stats s).1.index n =
          some { getReadings := c.getReadings, doCommands := c.doCommands }) ∧
      (∀ n, s.record n = none → (Stats s).1.index n = none) ∧
      (Stats s).2 = s ∧
      (Stats NewRPCServiceServer).1 = [] := by
  refine ⟨?_, ?_, ?_, ?_, rfl, rfl⟩
  · rw [Stats_keys hwf]; exact hwf.1
  · intro n
    rw [Stats_keys hwf, Ne, serviceServer.record_eq_none_iff hwf, not_not]
  · intro n c h
    exact Stats_index_of_record hwf h
  · intro n h
    rw [GoMap.index_eq_none_iff, Stats_keys hwf]
    exact (serviceServer.record_eq_none_iff hwf n).1 h

theorem stats_is_point_in_time_copy_witness :
    exStore.WF ∧ (Stats exStore).1 = [("sensor1", ⟨3, 5⟩), ("other", ⟨7, 2⟩)] ∧
      (Stats exStore).1.index "other" = some ⟨7, 2⟩ ∧ (Stats exStore).2 = exStore :=
  have h := stats_is_point_in_time_copy exStore (by decide)
  ⟨by decide, by decide, h.2.2.1 "other" ⟨7, 2⟩ (by decide), h.2.2.2.2.1⟩

/-! ## Sequences of calls: invariant, counts and records -/

section sequences

variable {Ctx Extra R M Cmd Resp : Type}

theorem NewRPCServiceServer_WF : NewRPCServiceServer.WF := by decide

theorem wrapInt64_wrapInt64_add (a b : Int) :
    wrapInt64 (wrapInt64 a + b) = wrapInt64 (a + b) := by
  unfold wrapInt64
  omega

theorem WF_addGetReadings {s : serviceServer} (hwf : s.WF) (n : String) :
    ((s.getCounts n).2.addGetReadings (s.getCounts n).1 1).WF :=
  serviceServer.WF_getCounts_modifyAt hwf n _ fun _ hc => ⟨wrapInt64_isInt64 _, hc.2⟩

theorem WF_addDoCommands {s : serviceServer} (hwf : s.WF) (n : String) :
    ((s.getCounts n).2.addDoCommands (s.getCounts n).1 1).WF :=
  serviceServer.WF_getCounts_modifyAt hwf n _ fun _ hc => ⟨hc.1, wrapInt64_isInt64 _⟩

/-- Every call keeps the store well formed. -/
theorem step_WF (marshal : R → Except GoError M)
    (doFrom : Ctx → Sensor Ctx Extra R → DoCommandRequest Cmd → Except GoError Resp)
    {s : serviceServer} (hwf : s.WF) (c : Call Ctx Extra R Cmd) :
    (step marshal doFrom s c).WF := by
  cases c with
  | getReadings coll ctx req =>
    rcases GetReadings_cases marshal s coll ctx req with ⟨_, h⟩ | ⟨_, h⟩
    · simpa [step, h] using hwf
    · simpa [step, h] using WF_addGetReadings hwf req.Name
  | doCommand coll ctx req =>
    rcases DoCommand_cases doFrom s coll ctx req with ⟨_, h⟩ | ⟨_, h⟩
    · simpa [step, h] using hwf
    · simpa [step, h] using WF_addDoCommands hwf req.Name
  | stats => exact hwf

theorem run_WF (marshal : R → Except GoError M)
    (doFrom : Ctx → Sensor Ctx Extra R → DoCommandRequest Cmd → Except GoError Resp)
    (calls : List (Call Ctx Extra R Cmd)) :
    ∀ s : serviceServer, s.WF → (run marshal doFrom s calls).WF := by
  induction calls with
  | nil => intro s hwf; exact hwf
  | cons c cs ih => intro s hwf; exact ih _ (step_WF marshal doFrom hwf c)

/-- One call changes the `getReadings` count of `n` by one wrapping increment when it is a
successful `GetReadings` on `n`, and not at all otherwise. -/
theorem step_getReadingsCount (marshal : R → Except GoError M)
    (doFrom : Ctx → Sensor Ctx Extra R → DoCommandRequest Cmd → Except GoError Resp)
    {s : serviceServer} (hwf : s.WF) (c : Call Ctx Extra R Cmd) (n : String) :
    getReadingsCount (step marshal doFrom s c) n =
      wrapInt64 (getReadingsCount s n + (if c.readSucceeds marshal s n then 1 else 0)) := by
  have hsame : getReadingsCount s n = wrapInt64 (getReadingsCount s n + 0) := by
    rw [add_zero, wrapInt64_of_isInt64 (serviceServer.isInt64_getReadingsCount hwf n)]
  cases c with
  | getReadings coll ctx req =>
    rcases GetReadings_cases marshal s coll ctx req with ⟨hok, h⟩ | ⟨hok, h⟩
    · simpa [step, h, Call.readSucceeds, hok] using hsame
    · by_cases hn : req.Name = n
      · subst hn
        simp only [step, h, Call.readSucceeds, hok, decide_True, Bool.and_self, if_true]
        exact (serviceServer.counts_addGetReadings hwf req.Name).1
      · have hs := sameEntry_getCounts_modifyAt hwf (Ne.symm hn)
          (fun c : counters => { c with getReadings := atomicAdd c.getReadings 1 })
        have h4 := hs.2.2.2.1
        simp only [step, h, Call.readSucceeds, hn, decide_False, Bool.false_and]
        exact h4.trans hsame
  | doCommand coll ctx req =>
    rcases DoCommand_cases doFrom s coll ctx req with ⟨_, h⟩ | ⟨_, h⟩
    · simpa [step, h, Call.readSucceeds] using hsame
    · by_cases hn : req.Name = n
      · subst hn
        simp only [step, h, Call.readSucceeds]
        exact ((serviceServer.counts_addDoCommands hwf req.Name).2).trans hsame
      · have hs := sameEntry_getCounts_modifyAt hwf (Ne.symm hn)
          (fun c : counters => { c with doCommands := atomicAdd c.doCommands 1 })
        simp only [step, h, Call.readSucceeds]
        exact hs.2.2.2.1.trans hsame
  | stats => simpa [step, Stats, Call.readSucceeds] using hsame

/-- After a sequence of calls the `getReadings` count of `n` is the count before plus the
number of successful `GetReadings` calls on `n`, wrapped into the `int64` range. -/
theorem run_getReadingsCount (marshal : R → Except GoError M)
    (doFrom : Ctx → Sensor Ctx Extra R → DoCommandRequest Cmd → Except GoError Resp)
    (n : String) (calls : List (Call Ctx Extra R Cmd)) :
    ∀ s : serviceServer, s.WF →
      getReadingsCount (run marshal doFrom s calls) n =
        wrapInt64 (getReadingsCount s n + successfulReads marshal doFrom n s calls) := by
  induction calls with
  | nil =>
    intro s hwf
    simp only [run, List.foldl_nil, successfulReads, Nat.cast_zero, add_zero]
    exact (wrapInt64_of_isInt64 (serviceServer.isInt64_getReadingsCount hwf n)).symm
  | cons c cs ih =>
    intro s hwf
    have h1 := ih _ (step_WF marshal doFrom hwf c)
    have h2 := step_getReadingsCount marshal doFrom hwf c n
    simp only [run, List.foldl_cons] at h1 ⊢
    rw [h1, h2, wrapInt64_wrapInt64_add]
    congr 1
    simp only [successfulReads]
    split <;> push_cast <;> ring

/-- One call gives `n` a map entry exactly when it is a successful `GetReadings` on `n` or
a `DoCommand` on `n` whose name resolves; entries are never removed. -/
theorem step_mem_keys (marshal : R → Except GoError M)
    (doFrom : Ctx → Sensor Ctx Extra R → DoCommandRequest Cmd → Except GoError Resp)
    (s : serviceServer) (c : Call Ctx Extra R Cmd) (n : String) :
    n ∈ (step marshal doFrom s c).counters.keys ↔
      n ∈ s.counters.keys ∨ (c.readSucceeds marshal s n || c.commandResolves n) = true := by
  cases c with
  | getReadings coll ctx req =>
    rcases GetReadings_cases marshal s coll ctx req with ⟨hok, h⟩ | ⟨hok, h⟩
    · simp [step, h, Call.readSucceeds, Call.commandResolves, hok]
    · simp only [step, h, Call.readSucceeds, Call.commandResolves, hok, Bool.and_true,
        Bool.or_false, decide_eq_true_eq]
      unfold serviceServer.addGetReadings
      rw [serviceServer.keys_getCounts_modifyAt]
      split
      · constructor
        · exact Or.inl
        · rintro (h1 | rfl)
          · exact h1
          · assumption
      · simp [eq_comm]
  | doCommand coll ctx req =>
    rcases DoCommand_cases doFrom s coll ctx req with ⟨hok, h⟩ | ⟨hok, h⟩
    · simp [step, h, Call.readSucceeds, Call.commandResolves, hok]
    · simp only [step, h, Call.readSucceeds, Call.commandResolves, hok, Bool.and_true,
        Bool.false_or, decide_eq_true_eq]
      unfold serviceServer.addDoCommands
      rw [serviceServer.keys_getCounts_modifyAt]
      split
      · constructor
        · exact Or.inl
        · rintro (h1 | rfl)
          · exact h1
          · assumption
      · simp [eq_comm]
  | stats => simp [step, Stats, Call.readSucceeds, Call.commandResolves]

theorem run_mem_keys (marshal : R → Except GoError M)
    (doFrom : Ctx → Sensor Ctx Extra R → DoCommandRequest Cmd → Except GoError Resp)
    (n : String) (calls : List (Call Ctx Extra R Cmd)) :
    ∀ s : serviceServer,
      (n ∈ (run marshal doFrom s calls).counters.keys ↔
        n ∈ s.counters.keys ∨ counted marshal doFrom n s calls = true) := by
  induction calls with
  | nil => intro s; simp [run, counted]
  | cons c cs ih =>
    intro s
    have h1 := ih (step marshal doFrom s c)
    have h2 := step_mem_keys marshal doFrom s c n
    simp only [run, List.foldl_cons] at h1 ⊢
    rw [h1, h2]
    simp only [counted, Bool.or_eq_true]
    tauto

theorem counted_of_successfulReads_pos (marshal : R → Except GoError M)
    (doFrom : Ctx → Sensor Ctx Extra R → DoCommandRequest Cmd → Except GoError Resp)
    (n : String) (calls : List (Call Ctx Extra R Cmd)) :
    ∀ s : serviceServer, 0 < successfulReads marshal doFrom n s calls →
      counted marshal doFrom n s calls = true := by
  induction calls with
  | nil => intro s h; simp [successfulReads] at h
  | cons c cs ih =>
    intro s h
    simp only [successfulReads] at h
    simp only [counted, Bool.or_eq_true]
    by_cases hc : c.readSucceeds marshal s n = true
    · exact Or.inl (Or.inl hc)
    · right
      apply ih
      simpa [hc] using h

/-- What `Stats` reports for `n` after a fresh server has handled `calls`, at least one of
them a successful `GetReadings` on `n`: the number of such calls, wrapped into `int64`. -/
theorem stats_getReadings_after_run (marshal : R → Except GoError M)
    (doFrom : Ctx → Sensor Ctx Extra R → DoCommandRequest Cmd → Except GoError Resp)
    (n : String) (calls : List (Call Ctx Extra R Cmd))
    (hpos : 0 < successfulReads marshal doFrom n NewRPCServiceServer calls) :
    ∃ st, (Stats (run marshal doFrom NewRPCServiceServer calls)).1.index n = some st ∧
      st.getReadings =
        wrapInt64 (successfulReads marshal doFrom n NewRPCServiceServer calls) := by
  have hwf := run_WF marshal doFrom calls _ NewRPCServiceServer_WF
  have hcnt := counted_of_successfulReads_pos marshal doFrom n calls _ hpos
  have hmem : n ∈ (run marshal doFrom NewRPCServiceServer calls).counters.keys :=
    (run_mem_keys marshal doFrom n calls _).2 (Or.inr hcnt)
  have hrec : (run marshal doFrom NewRPCServiceServer calls).record n ≠ none := by
    rw [Ne, serviceServer.record_eq_none_iff hwf, not_not]
    exact hmem
  cases hc : (run marshal doFrom NewRPCServiceServer calls).record n with
  | none => exact absurd hc hrec
  | some c =>
    refine ⟨_, Stats_index_of_record hwf hc, ?_⟩
    have hrun := run_getReadingsCount marshal doFrom n calls _ NewRPCServiceServer_WF
    have h0 : getReadingsCount NewRPCServiceServer n = 0 := rfl
    rw [h0, zero_add] at hrun
    rw [← hrun]
    simp [getReadingsCount, hc]

/-- C7, amended: for every `k` with `1 ≤ k < 2^63` and every name `n`, after a fresh server
has handled any finite sequence of `GetReadings`, `DoCommand` and `Stats` calls among
which exactly `k` `GetReadings` calls on `n` succeed, `Stats` has an entry for `n` whose
`getReadings` count is exactly `k`. -/
theorem stats_reports_successful_reads (marshal : R → Except GoError M)
    (doFrom : Ctx → Sensor Ctx Extra R → DoCommandRequest Cmd → Except GoError Resp)
    (n : String) (calls : List (Call Ctx Extra R Cmd)) (k : Nat) (hk1 : 1 ≤ k)
    (hk : k < 2 ^ 63)
    (hcount : successfulReads marshal doFrom n NewRPCServiceServer calls = k) :
    ∃ st, (Stats (run marshal doFrom NewRPCServiceServer calls)).1.index n = some st ∧
      st.getReadings = k := by
  obtain ⟨st, hst, hval⟩ := stats_getReadings_after_run marshal doFrom n calls
    (by rw [hcount]; exact hk1)
  refine ⟨st, hst, ?_⟩
  rw [hval, hcount]
  apply wrapInt64_of_isInt64
  unfold isInt64
  constructor <;> omega

theorem stats_reports_successful_reads_witness :
    successfulReads exMarshal exDo "sensor1" NewRPCServiceServer exCalls = 2 ∧
      ∃ st, (Stats (run exMarshal exDo NewRPCServiceServer exCalls)).1.index "sensor1" =
        some st ∧ st.getReadings = (2 : Nat) :=
  ⟨by rfl, stats_reports_successful_reads exMarshal exDo "sensor1" exCalls 2 (by decide)
    (by decide) (by rfl)⟩

theorem exReadCall_readSucceeds (s : serviceServer) :
    exReadCall.readSucceeds exMarshal s "sensor1" = true := by
  have h : GetReadings exMarshal s exColl () ⟨"sensor1", ()⟩ = _ :=
    @GetReadings_of_success _ _ _ _ exMarshal s exColl () ⟨"sensor1", ()⟩
      exTemp [("temp", .num 21)] [("temp", .num 21)] rfl rfl rfl
  simp only [exReadCall, Call.readSucceeds, h]
  rfl

theorem successfulReads_replicate_exReadCall (j : Nat) :
    ∀ s : serviceServer,
      successfulReads exMarshal exDo "sensor1" s (List.replicate j exReadCall) = j := by
  induction j with
  | zero => intro s; rfl
  | succ j ih =>
    intro s
    rw [List.replicate_succ]
    simp only [successfulReads, exReadCall_readSucceeds, if_true]
    rw [ih]
    omega

/-- C7 as stated fails at `k = 2^63`: after `2^63` successful `GetReadings` calls on
`sensor1`, `Stats` reports the smallest `int64` for it, not `2^63`. -/
theorem stats_wraps_after_two_pow_63_reads :
    successfulReads exMarshal exDo "sensor1" NewRPCServiceServer
        (List.replicate (2 ^ 63) exReadCall) = 2 ^ 63 ∧
      ∃ st, (Stats (run exMarshal exDo NewRPCServiceServer
          (List.replicate (2 ^ 63) exReadCall))).1.index "sensor1" = some st ∧
        st.getReadings = -9223372036854775808 ∧
        st.getReadings ≠ ((2 ^ 63 : Nat) : Int) := by
  have hcount := successfulReads_replicate_exReadCall (2 ^ 63) NewRPCServiceServer
  obtain ⟨st, hst, hval⟩ := stats_getReadings_after_run exMarshal exDo "sensor1"
    (List.replicate (2 ^ 63) exReadCall) (by rw [hcount]; exact Nat.two_pow_pos 63)
  rw [hcount] at hval
  have hw : wrapInt64 ((2 ^ 63 : Nat) : Int) = -9223372036854775808 := by decide
  rw [hw] at hval
  refine ⟨hcount, st, hst, hval, ?_⟩
  rw [hval]
  decide

/-- C8, amended: at every point of every sequence of calls handled by a fresh server, a name
has exactly one counters record if it has been the target of at least one `GetReadings`
call that succeeded or one `DoCommand` call whose name resolved, and no record otherwise. -/
theorem counted_names_have_exactly_one_record (marshal : R → Except GoError M)
    (doFrom : Ctx → Sensor Ctx Extra R → DoCommandRequest Cmd → Except GoError Resp)
    (calls : List (Call Ctx Extra R Cmd)) (i : Nat) (n : String) :
    (run marshal doFrom NewRPCServiceServer (calls.take i)).counters.keys.count n =
        (if counted marshal doFrom n NewRPCServiceServer (calls.take i) then 1 else 0) ∧
      ((run marshal doFrom NewRPCServiceServer (calls.take i)).record n ≠ none ↔
        counted marshal doFrom n NewRPCServiceServer (calls.take i) = true) := by
  have hwf := run_WF marshal doFrom (calls.take i) _ NewRPCServiceServer_WF
  have hmem := run_mem_keys marshal doFrom n (calls.take i) NewRPCServiceServer
  have hnil : n ∉ NewRPCServiceServer.counters.keys := by simp [NewRPCServiceServer, GoMap.keys]
  simp only [hnil, false_or] at hmem
  constructor
  · by_cases hc : counted marshal doFrom n NewRPCServiceServer (calls.take i) = true
    · rw [if_pos hc]
      exact List.count_eq_one_of_mem hwf.1 (hmem.2 hc)
    · rw [if_neg hc]
      exact List.count_eq_zero_of_not_mem fun h => hc (hmem.1 h)
  · rw [Ne, serviceServer.record_eq_none_iff hwf, not_not]
    exact hmem

theorem counted_names_have_exactly_one_record_witness :
    (run exMarshal exDo NewRPCServiceServer (exCalls.take 3)).counters.keys.count "empty" = 1 ∧
      (run exMarshal exDo NewRPCServiceServer (exCalls.take 3)).counters.keys.count
        "nilsensor" = 0 :=
  ⟨(counted_names_have_exactly_one_record exMarshal exDo exCalls 3 "empty").1.trans (by rfl),
    (counted_names_have_exactly_one_record exMarshal exDo exCalls 3 "nilsensor").1.trans
      (by rfl)⟩

/-- C8 as stated fails: `missing` and `nilsensor` are targets of calls handled by a fresh
server, and neither has a counters record afterwards; the store is still empty. -/
theorem failed_calls_create_no_record :
    exFailedCalls.map Call.target = [some "missing", some "missing", some "nilsensor"] ∧
      (run exMarshal exDo NewRPCServiceServer exFailedCalls).counters.keys.count "missing" = 0 ∧
      (run exMarshal exDo NewRPCServiceServer exFailedCalls).record "missing" = none ∧
      (run exMarshal exDo NewRPCServiceServer exFailedCalls).counters.keys.count
        "nilsensor" = 0 ∧
      (run exMarshal exDo NewRPCServiceServer exFailedCalls).record "nilsensor" = none ∧
      run exMarshal exDo NewRPCServiceServer exFailedCalls = NewRPCServiceServer := by
  refine ⟨by rfl, by rfl, by rfl, by rfl, by rfl, by rfl⟩

end sequences

end sensor
